import Mathlib

/-!
Verified model of the DET practice application (TypeScript source:
the activity components, the app shell, and the Gemini service wrappers).

Conventions of the shallow embedding:
* JS strings are sequences of UTF-16 code units, modelled as `List Nat`
  (the source only manipulates ASCII text, so one code unit per character);
  `s.length` is the JS `length`, `++` is JS concatenation.
* `Math.random()` draws are explicit rational parameters in `[0, 1)`.
* Network calls (Gemini) are modelled by an `Except Unit` outcome handed to
  the function: `.ok r` is a successful transport + parse producing `r`,
  `.error ()` is any transport or parse failure (both land in the same JS
  `catch` block).
* React components become explicit state records; user/timer callbacks
  become events consumed by a step function; a session is a `List.foldl`
  of the step function over an event list.
-/

set_option maxRecDepth 4000

namespace DET

/-- JS strings as lists of UTF-16 code units. -/
abbrev Str := List Nat

/-- Code units of a Lean string literal (all source literals are ASCII). -/
def str (s : String) : Str := s.data.map Char.toNat

/-- Model of `String.prototype.toLowerCase` on one code unit (the source only
lower-cases ASCII words, so the ASCII mapping is the relevant fragment). -/
def jsLowerChar (c : Nat) : Nat := if 65 ≤ c ∧ c ≤ 90 then c + 32 else c

/-- Model of `String.prototype.toUpperCase` on one code unit. -/
def jsUpperChar (c : Nat) : Nat := if 97 ≤ c ∧ c ≤ 122 then c - 32 else c

/-- Whitespace class of the regexes and of `String.prototype.trim`
(ASCII fragment: tab, LF, VT, FF, CR, space). -/
def jsIsSpace (c : Nat) : Bool := decide (c = 9 ∨ c = 10 ∨ c = 11 ∨ c = 12 ∨ c = 13 ∨ c = 32)

/-- The character class `[a-zA-Z]`. -/
def jsIsAlpha (c : Nat) : Bool := decide ((65 ≤ c ∧ c ≤ 90) ∨ (97 ≤ c ∧ c ≤ 122))

/-- JS `toLowerCase`. -/
def jsLower (s : Str) : Str := s.map jsLowerChar

/-- JS `toUpperCase`. -/
def jsUpper (s : Str) : Str := s.map jsUpperChar

/-- JS `trim`: strip leading and trailing whitespace. -/
def jsTrim (s : Str) : Str := ((s.dropWhile jsIsSpace).reverse.dropWhile jsIsSpace).reverse

/-- An entry of the static vocabulary lists (`WordDef` in `data.ts`, which is
not part of the sources under review; only its shape `{word, type, level}` is
used, so it is carried abstractly). -/
structure WordDef where
  word : Str
  type : Str
  level : Str
deriving DecidableEq, Repr

/-! ### Gemini service wrappers (`src/services/geminiService.ts`) -/

/-- Parsed response shape of `evaluatePhotoDescription`. -/
structure PhotoEval where
  score : Int
  feedback : Str
  corrections : List Str
  betterVersion : Str
deriving DecidableEq, Repr

/-- The object returned by the `catch` block of `evaluatePhotoDescription`. -/
def evalFallback : PhotoEval :=
  { score := 0
    feedback := str "Error connecting to AI tutor."
    corrections := []
    betterVersion := str "" }

/-- Model of `evaluatePhotoDescription`: the whole `try` block (network call
plus `JSON.parse`) is the outcome argument; any failure is caught and replaced
by `evalFallback`, never rethrown. -/
def evaluatePhotoDescription (outcome : Except Unit PhotoEval) : PhotoEval :=
  match outcome with
  | .ok r => r
  | .error _ => evalFallback

/-- Parsed response shape of `generateParagraphTask`. -/
structure ParagraphTask where
  topic : Str
  text : Str
deriving DecidableEq, Repr

/-- The fixed built-in paragraph returned by the `catch` block of
`generateParagraphTask`. -/
def paragraphFallback : ParagraphTask :=
  { topic := str "Technology"
    text := str "Technology has revolutionized the way we communicate. In the past, letters took days to arrive, but now emails are instantaneous. However, this convenience comes with challenges, such as maintaining privacy and avoiding distractions in our daily lives." }

/-- Model of `generateParagraphTask`: on any transport/parse failure the fixed
fallback paragraph is returned. -/
def generateParagraphTask (outcome : Except Unit ParagraphTask) : ParagraphTask :=
  match outcome with
  | .ok r => r
  | .error _ => paragraphFallback

/-! ### Game 4: Complete the Text (C-test), `CompleteTextGame` -/

/-- One C-test token (interface `Token` of the source; the source field
named `prefix` is rendered here as `visiblePrefix`, and the absent
`isCorrect?` field of a fresh token is `none`). -/
structure Token where
  fullWord : Str
  visiblePrefix : Str
  isBlank : Bool
  userAnswer : Str
  isCorrect : Option Bool
deriving DecidableEq, Repr

/-- The eligibility regex `/^[a-zA-Z]+$/` of `loadLevel`. -/
def isWordTok (w : Str) : Bool := !w.isEmpty && w.all jsIsAlpha

/-- Token construction of `loadLevel` for one raw chunk `w`, where `r` models
the `Math.random()` draw.  Mirrors the source: `shouldBlank` is
`isWord && w.length > 3 && Math.random() > 0.6`; the blanked token's visible
prefix is `w.substring(0, Math.max(1, Math.floor(w.length / 2)))` (the locals
`prefixLen = Math.ceil(w.length / 2)` and `prefix = w.substring(0, 1)` that the
source also computes are dead and never read), and `userAnswer` starts empty. -/
def mkToken (w : Str) (r : ℚ) : Token :=
  let isWord := isWordTok w
  let shouldBlank := isWord && decide (3 < w.length) && decide (mkRat 3 5 < r)
  if shouldBlank then
    { fullWord := w
      visiblePrefix := w.take (max 1 (w.length / 2))
      isBlank := true
      userAnswer := []
      isCorrect := none }
  else
    { fullWord := w, visiblePrefix := [], isBlank := false, userAnswer := [], isCorrect := none }

/-- Tokenise a list of raw chunks, each paired with its random draw. -/
def mkTokens (wrs : List (Str × ℚ)) : List Token := wrs.map fun p => mkToken p.1 p.2

/-- Attach a draw to every chunk, reading the random source positionally. -/
def withDraws : List Str → (Nat → ℚ) → List (Str × ℚ)
  | [], _ => []
  | w :: ws, rand => (w, rand 0) :: withDraws ws fun i => rand (i + 1)

/-- The punctuation alternative `[.,!?;]` of the splitting regex. -/
def splitPunct (c : Nat) : Bool := decide (c = 44 ∨ c = 46 ∨ c = 33 ∨ c = 63 ∨ c = 59)

/-- Scanning state of the splitter: currently inside a substrate chunk
(`word`) or inside a whitespace run (`run`); both buffers are reversed. -/
inductive SplitAcc
  | word (cur : Str)
  | run (cur : Str)
deriving DecidableEq, Repr

/-- One character of the split scan.  The output list is built reversed.
Substrate chunks and captured separators alternate exactly as in the JS
result of `split` with a capturing group, including the empty substrate
chunks between two adjacent separators. -/
def splitStep : List Str × SplitAcc → Nat → List Str × SplitAcc
  | (out, .word cur), c =>
    if jsIsSpace c then (cur.reverse :: out, .run [c])
    else if splitPunct c then ([c] :: cur.reverse :: out, .word [])
    else (out, .word (c :: cur))
  | (out, .run cur), c =>
    if jsIsSpace c then (out, .run (c :: cur))
    else if splitPunct c then ([c] :: [] :: cur.reverse :: out, .word [])
    else (cur.reverse :: out, .word [c])

/-- Flush the scanning state at the end of the input (a trailing separator
produces a trailing empty substrate chunk, as in JS). -/
def splitFinish : List Str × SplitAcc → List Str
  | (out, .word cur) => (cur.reverse :: out).reverse
  | (out, .run cur) => ([] :: cur.reverse :: out).reverse

/-- Model of `data.text.split(/(\s+|[.,!?;])/)` in `loadLevel`: split keeping
the delimiters (maximal whitespace runs, single punctuation marks) as tokens
of the result. -/
def splitKeep (s : Str) : List Str := splitFinish (s.foldl splitStep ([], .word []))

/-- The `gameState` of `CompleteTextGame`. -/
inductive CPhase
  | playing
  | review
deriving DecidableEq, Repr

/-- Component state of `CompleteTextGame` after `loadLevel` resolves. -/
structure CTestState where
  topic : Str
  tokens : List Token
  loading : Bool
  gameState : CPhase
deriving DecidableEq, Repr

/-- Model of `loadLevel`: fetch (or fall back), tokenise, enter `playing`. -/
def loadLevel (outcome : Except Unit ParagraphTask) (rand : Nat → ℚ) : CTestState :=
  let data := generateParagraphTask outcome
  { topic := data.topic
    tokens := mkTokens (withDraws (splitKeep data.text) rand)
    loading := false
    gameState := .playing }

/-- Model of `handleInput`: overwrite the `userAnswer` of the token at the
given index (out-of-range indices never occur in the source, which only
passes indices of rendered tokens; they leave the list unchanged here). -/
def handleInput : List Token → Nat → Str → List Token
  | [], _, _ => []
  | t :: ts, 0, v => { t with userAnswer := v } :: ts
  | t :: ts, n + 1, v => t :: handleInput ts n v

/-- Fold a sequence of `handleInput` edits over the token list. -/
def applyEdits (ts : List Token) (edits : List (Nat × Str)) : List Token :=
  edits.foldl (fun acc e => handleInput acc e.1 e.2) ts

/-- Model of `checkAnswers`: non-blank tokens pass through unchanged; a blank
token is graded by the case-insensitive comparison of `prefix + userAnswer`
against `fullWord`. -/
def checkAnswers (ts : List Token) : List Token :=
  ts.map fun t =>
    if t.isBlank then
      { t with isCorrect := some (jsLower (t.visiblePrefix ++ t.userAnswer) == jsLower t.fullWord) }
    else t

/-! ### Game 3: Fill in the Blanks, `FillBlankGame` -/

/-- The `getPrefix` helper: `word.substring(0, Math.max(1, Math.floor(word.length / 3)))`. -/
def getPrefix (word : Str) : Str := word.take (max 1 (word.length / 3))

/-- The grading test inside `checkAnswer`: `fullAttempt.trim().toLowerCase()
=== data.missingWord.toLowerCase()` with `fullAttempt = prefix + userInput`. -/
def checkAnswer (missingWord userInput : Str) : Bool :=
  jsLower (jsTrim (getPrefix missingWord ++ userInput)) == jsLower missingWord

/-! ### Game 2: Write About Photo, `PhotoGame` -/

/-- The `stage` state of `PhotoGame`. -/
inductive PhotoStage
  | writing
  | evaluating
  | results
  | timeout
deriving DecidableEq, Repr

/-- Component state of `PhotoGame`.  `evalCount` instruments the number of
`evaluatePhotoDescription` invocations made so far in the session (it is not
a source variable; it counts the calls issued by `handleSubmit`). -/
structure PhotoState where
  text : Str
  stage : PhotoStage
  evalCount : Nat
deriving DecidableEq, Repr

/-- The synchronous part of `handleSubmit`: enter `evaluating` and issue the
evaluation call (counted by `evalCount`). -/
def submitStart (s : PhotoState) : PhotoState :=
  { s with stage := .evaluating, evalCount := s.evalCount + 1 }

/-- Model of `handleTimeout`: `if (text.length > 10) handleSubmit() else
setStage('timeout')`.  Note it inspects only the text length. -/
def handleTimeout (s : PhotoState) : PhotoState :=
  if 10 < s.text.length then submitStart s else { s with stage := .timeout }

/-- The `disabled` condition of the SUBMIT RESPONSE button: `text.length < 10`. -/
def submitDisabled (text : Str) : Bool := decide (text.length < 10)

/-- Events of a photo session.  `timerFires` is the `Timer` reaching zero;
the `Timer` element is rendered only by the `writing` view, so the event is
deliverable only in that stage; likewise `setText` (the textarea and the
speculation-phrase buttons), `clickSubmit` (the submit button, which does
nothing while disabled), and `tryAgain` (the button of the timeout view).
`evalCompletes` is the resolution of the awaited evaluation call. -/
inductive PhotoEvent
  | setText (t : Str)
  | clickSubmit
  | timerFires
  | evalCompletes
  | tryAgain
deriving DecidableEq, Repr

/-- Event step of `PhotoGame` under the single-threaded browser event model:
each handler runs only when its originating element is mounted. -/
def photoStep (s : PhotoState) : PhotoEvent → PhotoState
  | .setText t => if s.stage = .writing then { s with text := t } else s
  | .clickSubmit =>
      if s.stage = .writing ∧ submitDisabled s.text = false then submitStart s else s
  | .timerFires => if s.stage = .writing then handleTimeout s else s
  | .evalCompletes => if s.stage = .evaluating then { s with stage := .results } else s
  | .tryAgain => if s.stage = .timeout then { s with stage := .writing } else s

/-- Initial state of `PhotoGame`: empty text, `writing`, no call issued. -/
def photoInit : PhotoState := { text := [], stage := .writing, evalCount := 0 }

/-- Run a photo session over an event list. -/
def photoRun (s : PhotoState) (es : List PhotoEvent) : PhotoState := es.foldl photoStep s

/-! ### Game 1: Real Word Selection, `RealWordGame` -/

/-- One quiz item: `{ text, isReal }`. -/
structure RWItem where
  text : Str
  isReal : Bool
deriving DecidableEq, Repr

/-- One entry of `userResults`: `{ word, isReal, correct }`. -/
structure RWResult where
  word : Str
  isReal : Bool
  correct : Bool
deriving DecidableEq, Repr

/-- Component state of `RealWordGame` after the word mix is generated. -/
structure RWState where
  words : List RWItem
  currentIndex : Nat
  score : Nat
  gameOver : Bool
  userResults : List RWResult
deriving DecidableEq, Repr

/-- Placeholder for the (never taken) out-of-range read `words[currentIndex]`. -/
def defaultItem : RWItem := { text := [], isReal := false }

/-- Model of `handleNext`: record the result for the current word, bump the
score on a correct judgment, advance or finish. -/
def handleNext (s : RWState) (isCorrect : Bool) : RWState :=
  let cur := s.words.getD s.currentIndex defaultItem
  let results := s.userResults ++ [{ word := cur.text, isReal := cur.isReal, correct := isCorrect }]
  let sc := if isCorrect then s.score + 1 else s.score
  if s.currentIndex < s.words.length - 1 then
    { s with userResults := results, score := sc, currentIndex := s.currentIndex + 1 }
  else
    { s with userResults := results, score := sc, gameOver := true }

/-- Events of a real-word session: a YES/NO judgment (`handleChoice`) or the
5-second per-word timer expiring (which the source treats as
`handleNext(false)`). -/
inductive RWEvent
  | choice (b : Bool)
  | timeout
deriving DecidableEq, Repr

/-- Event step of `RealWordGame`: once `gameOver` the interval is cleared and
only the results screen is rendered, so events no longer change the state. -/
def rwStep (s : RWState) (e : RWEvent) : RWState :=
  if s.gameOver then s
  else
    match e with
    | .choice b => handleNext s (b == (s.words.getD s.currentIndex defaultItem).isReal)
    | .timeout => handleNext s false

/-- Run a real-word session over an event list. -/
def rwRun (s : RWState) (es : List RWEvent) : RWState := es.foldl rwStep s

/-- Initial state once the shuffled mix is set. -/
def rwInit (mix : List RWItem) : RWState :=
  { words := mix, currentIndex := 0, score := 0, gameOver := false, userResults := [] }

/-- The result `handleNext` records for item `it` under event `e`. -/
def resOf (it : RWItem) : RWEvent → RWResult
  | .choice b => { word := it.text, isReal := it.isReal, correct := b == it.isReal }
  | .timeout => { word := it.text, isReal := it.isReal, correct := false }

/-! ### Flashcards (`FlashcardsActivity`) and progress store -/

/-- The current-card read `deck[index] || deck[0]` (a `WordDef` object is
never falsy, so `||` falls through exactly on an out-of-range read). -/
def currentCardLookup (deck : List WordDef) (index : Nat) : Option WordDef :=
  (deck.get? index).orElse fun _ => deck.get? 0

/-- The index update of `handleUnknown`: `(index + 1) % deck.length`. -/
def handleUnknownIndex (deck : List WordDef) (index : Nat) : Nat :=
  (index + 1) % deck.length

/-- The render guard before the card view: `if (deck.length === 0) return`.
The card view (and with it both action buttons) is rendered only when this
holds. -/
def cardViewRendered (deck : List WordDef) : Bool := decide (deck.length ≠ 0)

/-- Model of `markWordKnown` in the app shell: append the word unless already
present. -/
def markWordKnown (known : List Str) (word : Str) : List Str :=
  if word ∈ known then known else known ++ [word]

/-- Model of `resetCategoryProgress`: behind the `confirm` dialog, remove
exactly the words of the chosen category's deck from the known set. -/
def resetCategoryProgress (known : List Str) (deck : List WordDef) (confirmed : Bool) : List Str :=
  if confirmed then
    let wordsToRemove := deck.map fun w => w.word
    known.filter fun w => !wordsToRemove.contains w
  else known

/-- The operations of the app shell that can touch `knownWords`. -/
inductive ProgressOp
  | mark (word : Str)
  | reset (deck : List WordDef) (confirmed : Bool)

/-- Whether an operation is a confirmed category reset. -/
def ProgressOp.isConfirmedReset : ProgressOp → Bool
  | .reset _ c => c
  | .mark _ => false

/-- Apply one progress operation to the known-words list. -/
def applyOp (known : List Str) : ProgressOp → List Str
  | .mark w => markWordKnown known w
  | .reset deck c => resetCategoryProgress known deck c

/-- Apply a sequence of progress operations. -/
def applyOps (known : List Str) (ops : List ProgressOp) : List Str :=
  ops.foldl applyOp known

/-! ### Specification-side definitions and verification invariants -/

/-- The blanking rule as the (amended) specification words it: a token that is
purely alphabetic and longer than 3 characters is blanked exactly when the
draw exceeds 0.6 (= 3/5); a blanked token shows the first
`max 1 (floor (len / 2))` characters and starts with an empty editable
suffix; all other tokens pass through unblanked. -/
def tokenRuleSpec (w : Str) (r : ℚ) : Token :=
  if w.all jsIsAlpha ∧ 3 < w.length ∧ mkRat 3 5 < r then
    { fullWord := w
      visiblePrefix := w.take (max 1 (w.length / 2))
      isBlank := true
      userAnswer := []
      isCorrect := none }
  else
    { fullWord := w, visiblePrefix := [], isBlank := false, userAnswer := [], isCorrect := none }

/-- Play-phase token invariant: ungraded, and a blanked token shows a strict
non-empty visible prefix of its full word. -/
def TokenOk (t : Token) : Prop :=
  t.isCorrect = none ∧
    (t.isBlank = true →
      t.visiblePrefix ≠ [] ∧ t.visiblePrefix.length < t.fullWord.length ∧
        t.visiblePrefix <+: t.fullWord)

/-- Reachability invariant of the photo session: at most one evaluation call
so far, and none yet whenever the timer can still be mounted (the `writing`
stage) or reached through the timeout screen. -/
def photoInv (s : PhotoState) : Prop :=
  s.evalCount ≤ 1 ∧
    ((s.stage = PhotoStage.writing ∨ s.stage = PhotoStage.timeout) → s.evalCount = 0)

/-- Pointwise relation on code units used for the case-insensitivity proof:
related units agree on whitespace-ness and on their lower-cased image. -/
def CaseRel (c d : Nat) : Prop :=
  jsIsSpace c = jsIsSpace d ∧ jsLowerChar c = jsLowerChar d

/-! ## Helper lemmas -/

theorem jsLowerChar_upperChar (c : Nat) : jsLowerChar (jsUpperChar c) = jsLowerChar c := by
  unfold jsLowerChar jsUpperChar
  split_ifs <;> omega

theorem jsIsSpace_upperChar (c : Nat) : jsIsSpace (jsUpperChar c) = jsIsSpace c := by
  unfold jsIsSpace jsUpperChar
  split_ifs with h
  · simp only [decide_eq_decide]
    omega
  · rfl

theorem caseRel_self (c : Nat) : CaseRel c c := ⟨rfl, rfl⟩

theorem caseRel_upper (c : Nat) : CaseRel c (jsUpperChar c) :=
  ⟨(jsIsSpace_upperChar c).symm, (jsLowerChar_upperChar c).symm⟩

theorem caseRel_refl (s : Str) : List.Forall₂ CaseRel s s := by
  induction s with
  | nil => exact List.Forall₂.nil
  | cons c cs ih => exact List.Forall₂.cons (caseRel_self c) ih

theorem caseRel_upper_list (s : Str) : List.Forall₂ CaseRel s (jsUpper s) := by
  induction s with
  | nil => exact List.Forall₂.nil
  | cons c cs ih => exact List.Forall₂.cons (caseRel_upper c) ih

theorem caseRel_dropWhile {s t : Str} (h : List.Forall₂ CaseRel s t) :
    List.Forall₂ CaseRel (s.dropWhile jsIsSpace) (t.dropWhile jsIsSpace) := by
  induction h with
  | nil => exact List.Forall₂.nil
  | cons hcd hrest ih =>
    rename_i c d cs ds
    simp only [List.dropWhile_cons, hcd.1.symm]
    split
    · exact ih
    · exact List.Forall₂.cons hcd hrest

theorem caseRel_reverse {s t : Str} (h : List.Forall₂ CaseRel s t) :
    List.Forall₂ CaseRel s.reverse t.reverse :=
  List.rel_reverse h

theorem caseRel_lower_eq {s t : Str} (h : List.Forall₂ CaseRel s t) :
    jsLower s = jsLower t := by
  induction h with
  | nil => rfl
  | cons hcd hrest ih =>
    simp only [jsLower, List.map_cons] at ih ⊢
    exact congrArg₂ List.cons hcd.2 ih

theorem caseRel_trim_lower_eq {s t : Str} (h : List.Forall₂ CaseRel s t) :
    jsLower (jsTrim s) = jsLower (jsTrim t) :=
  caseRel_lower_eq (caseRel_reverse (caseRel_dropWhile (caseRel_reverse (caseRel_dropWhile h))))

theorem splitFinish_ne_nil (p : List Str × SplitAcc) : splitFinish p ≠ [] := by
  rcases p with ⟨out, m⟩
  cases m <;> simp [splitFinish]

theorem splitKeep_ne_nil (s : Str) : splitKeep s ≠ [] := splitFinish_ne_nil _

theorem withDraws_ne_nil {ws : List Str} (h : ws ≠ []) (rand : Nat → ℚ) :
    withDraws ws rand ≠ [] := by
  cases ws with
  | nil => exact absurd rfl h
  | cons w ws => simp [withDraws]

/-! ## Claims -/

/-- C5.  Sentence Fill-in-Blank: the visible prefix is the first
`max 1 (floor (len / 3))` characters of the target; grading concatenates
prefix and input, trims, and compares case-insensitively to the target, so it
is unchanged when the user's answer is upper-cased; for the target
"elephant" the prefix is "el" and the input "ephant" grades correct. -/
theorem c5_fillblank_grading :
    (∀ missingWord userInput : Str,
        checkAnswer missingWord (jsUpper userInput) = checkAnswer missingWord userInput)
    ∧ getPrefix (str "elephant") = str "el"
    ∧ checkAnswer (str "elephant") (str "ephant") = true
    ∧ ∀ word : Str, getPrefix word = word.take (max 1 (word.length / 3)) := by
  refine ⟨fun missingWord userInput => ?_, by decide, by decide, fun word => rfl⟩
  unfold checkAnswer
  have h : List.Forall₂ CaseRel (getPrefix missingWord ++ userInput)
      (getPrefix missingWord ++ jsUpper userInput) :=
    List.rel_append (caseRel_refl _) (caseRel_upper_list _)
  rw [caseRel_trim_lower_eq h]

/-- C8 counterexample.  The claim states the transport/parse fallback of
`evaluatePhotoDescription` has an empty feedback string; in the source the
`catch` block returns `feedback: "Error connecting to AI tutor."`, which is
not empty. -/
theorem c8_counterexample :
    (evaluatePhotoDescription (Except.error ())).feedback ≠ str "" := by decide

/-- C8 (amended).  When the network call or response parsing inside
`evaluatePhotoDescription` fails, the function returns (rather than throws) a
fallback object with score 0, empty corrections, empty betterVersion, and the
fixed feedback message "Error connecting to AI tutor."; a successful outcome
is returned unchanged. -/
theorem c8_eval_fallback :
    (∀ e : Unit, evaluatePhotoDescription (Except.error e) = evalFallback)
    ∧ evalFallback.score = 0
    ∧ evalFallback.corrections = []
    ∧ evalFallback.betterVersion = str ""
    ∧ evalFallback.feedback = str "Error connecting to AI tutor."
    ∧ ∀ r : PhotoEval, evaluatePhotoDescription (Except.ok r) = r :=
  ⟨fun _ => rfl, rfl, rfl, rfl, rfl, fun _ => rfl⟩

/-- C9.  When the Content Generation Service call inside
`generateParagraphTask` fails, the fixed built-in fallback paragraph with
topic "Technology" is returned, and `loadLevel` still reaches the `playing`
state with a non-empty token list produced from that fallback text. -/
theorem c9_paragraph_fallback (e : Unit) (rand : Nat → ℚ) :
    loadLevel (Except.error e) rand =
      { topic := str "Technology"
        tokens := mkTokens (withDraws (splitKeep paragraphFallback.text) rand)
        loading := false
        gameState := CPhase.playing }
    ∧ (loadLevel (Except.error e) rand).gameState = CPhase.playing
    ∧ (loadLevel (Except.error e) rand).topic = str "Technology"
    ∧ (loadLevel (Except.error e) rand).loading = false
    ∧ (loadLevel (Except.error e) rand).tokens ≠ [] := by
  refine ⟨rfl, rfl, rfl, rfl, ?_⟩
  show mkTokens (withDraws (splitKeep paragraphFallback.text) rand) ≠ []
  have h := withDraws_ne_nil (splitKeep_ne_nil paragraphFallback.text) rand
  unfold mkTokens
  simpa using h

/-- C9 witness: with a constant-zero random source, the failed fetch still
reaches the playing state. -/
theorem c9_paragraph_fallback_witness :
    (loadLevel (Except.error ()) fun _ => mkRat 0 1).gameState = CPhase.playing :=
  (c9_paragraph_fallback () fun _ => mkRat 0 1).2.1

/-- C10.  Whenever the flashcard card view is rendered (non-empty filtered
deck), the current-card lookup `deck[index] || deck[0]` succeeds even for an
out-of-range stored index, and the `handleUnknown` index update
`(index + 1) % deck.length` stays in range (its divisor being positive). -/
theorem c10_flashcard_safety (deck : List WordDef) (index : Nat)
    (h : cardViewRendered deck = true) :
    (currentCardLookup deck index).isSome = true
    ∧ handleUnknownIndex deck index < deck.length
    ∧ 0 < deck.length := by
  have hpos : 0 < deck.length := by
    have := of_decide_eq_true h
    omega
  refine ⟨?_, Nat.mod_lt _ hpos, hpos⟩
  unfold currentCardLookup
  cases hx : deck.get? index with
  | some w => simp [Option.orElse, hx]
  | none =>
    rw [List.get?_eq_get hpos]
    simp [Option.orElse, hx]

/-- C10 witness at a concrete singleton deck and out-of-range index. -/
theorem c10_flashcard_safety_witness :
    (currentCardLookup [{ word := str "cat", type := str "noun", level := str "B2" }] 5).isSome
        = true
    ∧ handleUnknownIndex [{ word := str "cat", type := str "noun", level := str "B2" }] 5
        < [({ word := str "cat", type := str "noun", level := str "B2" } : WordDef)].length
    ∧ 0 < [({ word := str "cat", type := str "noun", level := str "B2" } : WordDef)].length :=
  c10_flashcard_safety [{ word := str "cat", type := str "noun", level := str "B2" }] 5
    (by decide)

/-- C7.  A word added to the known-words set stays there under every
operation that is not a confirmed category reset, and a confirmed reset
keeps exactly the previously known words outside the chosen category's
deck. -/
theorem c7_known_words :
    (∀ (known : List Str) (w : Str) (ops : List ProgressOp), w ∈ known →
        (∀ op ∈ ops, op.isConfirmedReset = false) → w ∈ applyOps known ops)
    ∧ ∀ (known : List Str) (deck : List WordDef) (x : Str),
        x ∈ resetCategoryProgress known deck true ↔
          x ∈ known ∧ x ∉ deck.map fun d => d.word := by
  constructor
  · intro known w ops
    induction ops generalizing known with
    | nil => intro hw _; exact hw
    | cons op ops ih =>
      intro hw hops
      have hop : op.isConfirmedReset = false := hops op (List.mem_cons_self op ops)
      have hrest : ∀ o ∈ ops, o.isConfirmedReset = false := fun o ho =>
        hops o (List.mem_cons_of_mem op ho)
      have hmem : w ∈ applyOp known op := by
        cases op with
        | mark w2 =>
          simp only [applyOp, markWordKnown]
          split
          · exact hw
          · exact List.mem_append_left _ hw
        | reset deck c =>
          have hc : c = false := hop
          subst hc
          simpa [applyOp, resetCategoryProgress] using hw
      exact ih (applyOp known op) hmem hrest
  · intro known deck x
    simp only [resetCategoryProgress, if_true, List.mem_filter, Bool.not_eq_true',
      List.contains, List.elem_eq_mem, decide_eq_false_iff_not]

/-- C7 witness: marking another word and an unconfirmed reset keep a known
word known. -/
theorem c7_known_words_witness :
    str "cat" ∈ applyOps [str "cat"] [ProgressOp.mark (str "dog"), ProgressOp.reset [] false] :=
  c7_known_words.1 [str "cat"] (str "cat")
    [ProgressOp.mark (str "dog"), ProgressOp.reset [] false] (by decide) (by decide)

/-- C4 counterexample.  The claim says a blanked token's visible prefix is
the first `ceil (len / 2)` characters.  For the eligible 5-letter word
"apple" and a draw of 0.9 the source blanks the token but shows
`floor (5 / 2) = 2` characters ("ap"), not `ceil (5 / 2) = 3` ("app"): the
`ceil` computation in the source is a dead local. -/
theorem c4_counterexample :
    (mkToken (str "apple") (mkRat 9 10)).isBlank = true
    ∧ (mkToken (str "apple") (mkRat 9 10)).visiblePrefix
        ≠ (str "apple").take (((str "apple").length + 1) / 2) := by decide

/-- C4 (amended).  A token is blanked exactly when it is purely alphabetic,
longer than 3 characters, and its draw exceeds 0.6; a blanked token's visible
prefix is the first `max 1 (floor (len / 2))` characters of the word (for
eligible words this is `floor (len / 2)`), with an empty editable suffix. -/
theorem c4_blanking_rule : ∀ (w : Str) (r : ℚ), mkToken w r = tokenRuleSpec w r := by
  intro w r
  unfold mkToken tokenRuleSpec isWordTok
  rcases hw : w with _ | ⟨c, cs⟩
  · simp
  · simp only [List.isEmpty_cons, Bool.not_false, Bool.true_and, Bool.and_eq_true,
      decide_eq_true_eq]
    split_ifs with h1 h2 <;> first | rfl | (exfalso; tauto)

/-- C2 counterexample.  The claim says the timeout handler checks whether a
submission is already in flight or completed before triggering a submit.  The
source `handleTimeout` inspects only the text length: applied to a state
whose stage is already `evaluating` with one evaluation call issued, it
triggers a second submit (a second evaluation call) instead of leaving the
state alone. -/
theorem c2_counterexample :
    (handleTimeout
        { text := str "a description!", stage := PhotoStage.evaluating, evalCount := 1 }).evalCount
      = 2 := by decide

/-- C2 (amended).  The timeout handler itself checks only the text length;
the at-most-once property nevertheless holds because the countdown timer is
mounted only while the session is in the `writing` stage, so a timer expiry
is deliverable only there: along every event sequence from the initial state
the evaluation call is issued at most once. -/
theorem c2_photo_eval_at_most_once (es : List PhotoEvent) :
    (photoRun photoInit es).evalCount ≤ 1 := by
  have hstep : ∀ (s : PhotoState) (e : PhotoEvent), photoInv s → photoInv (photoStep s e) := by
    intro s e hs
    rcases hs with ⟨h1, h2⟩
    cases e with
    | setText t =>
      simp only [photoStep]
      split_ifs with h
      · exact ⟨h1, fun hst => h2 hst⟩
      · exact ⟨h1, h2⟩
    | clickSubmit =>
      simp only [photoStep]
      split_ifs with h
      · have h0 : s.evalCount = 0 := h2 (Or.inl h.1)
        refine ⟨by simp [submitStart, h0], fun hst => ?_⟩
        rcases hst with h' | h' <;> exact PhotoStage.noConfusion h'
      · exact ⟨h1, h2⟩
    | timerFires =>
      simp only [photoStep, handleTimeout]
      split_ifs with h hlen
      · have h0 : s.evalCount = 0 := h2 (Or.inl h)
        refine ⟨by simp [submitStart, h0], fun hst => ?_⟩
        rcases hst with h' | h' <;> exact PhotoStage.noConfusion h'
      · exact ⟨h1, fun _ => h2 (Or.inl h)⟩
      · exact ⟨h1, h2⟩
    | evalCompletes =>
      simp only [photoStep]
      split_ifs with h
      · refine ⟨h1, fun hst => ?_⟩
        rcases hst with h' | h' <;> exact PhotoStage.noConfusion h'
      · exact ⟨h1, h2⟩
    | tryAgain =>
      simp only [photoStep]
      split_ifs with h
      · exact ⟨h1, fun _ => h2 (Or.inr h)⟩
      · exact ⟨h1, h2⟩
  have hrun : ∀ (es : List PhotoEvent) (s : PhotoState), photoInv s → photoInv (photoRun s es) := by
    intro es
    induction es with
    | nil => exact fun s hs => hs
    | cons e es ih => exact fun s hs => ih (photoStep s e) (hstep s e hs)
  exact (hrun es photoInit ⟨Nat.zero_le 1, fun _ => rfl⟩).1

/-- C2 witness: a concrete session with a manual submit followed by a timer
event issues at most one evaluation call. -/
theorem c2_photo_eval_at_most_once_witness :
    (photoRun photoInit
        [PhotoEvent.setText (str "a full description"), PhotoEvent.clickSubmit,
          PhotoEvent.timerFires]).evalCount ≤ 1 :=
  c2_photo_eval_at_most_once
    [PhotoEvent.setText (str "a full description"), PhotoEvent.clickSubmit,
      PhotoEvent.timerFires]

/-- C4 witness: the rule evaluated at the eligible word "hello". -/
theorem c4_blanking_rule_witness :
    mkToken (str "hello") (mkRat 9 10) = tokenRuleSpec (str "hello") (mkRat 9 10) :=
  c4_blanking_rule (str "hello") (mkRat 9 10)

/-- C3 counterexample.  The claim says a timeout with at least 10 characters
written submits for evaluation.  With exactly 10 characters the source's
`text.length > 10` test fails, so the session transitions to the `timeout`
terminal state with no evaluation call — while the manual submit button is
already enabled at 10 characters (`disabled` is `text.length < 10`). -/
theorem c3_counterexample :
    (str "abcdefghij").length = 10
    ∧ (photoStep { text := str "abcdefghij", stage := PhotoStage.writing, evalCount := 0 }
          PhotoEvent.timerFires).stage = PhotoStage.timeout
    ∧ (photoStep { text := str "abcdefghij", stage := PhotoStage.writing, evalCount := 0 }
          PhotoEvent.timerFires).stage ≠ PhotoStage.evaluating
    ∧ (photoStep { text := str "abcdefghij", stage := PhotoStage.writing, evalCount := 0 }
          PhotoEvent.timerFires).evalCount = 0
    ∧ submitDisabled (str "abcdefghij") = false := by decide

/-- C3 (amended).  In the `writing` stage: a timer expiry with 10 or fewer
characters transitions directly to the `timeout` terminal state without
issuing an evaluation call; with strictly more than 10 characters it submits
the text (entering `evaluating` and issuing the call); and the manual submit
button is disabled exactly below the 10-character threshold. -/
theorem c3_timeout_thresholds (s : PhotoState) (h : s.stage = PhotoStage.writing) :
    (s.text.length ≤ 10 →
        photoStep s PhotoEvent.timerFires = { s with stage := PhotoStage.timeout })
    ∧ (10 < s.text.length →
        photoStep s PhotoEvent.timerFires = submitStart s
        ∧ (photoStep s PhotoEvent.timerFires).stage = PhotoStage.evaluating
        ∧ (photoStep s PhotoEvent.timerFires).evalCount = s.evalCount + 1)
    ∧ (submitDisabled s.text = true ↔ s.text.length < 10) := by
  simp only [photoStep, handleTimeout]
  rw [if_pos h]
  refine ⟨fun hle => ?_, fun hgt => ?_, by simp [submitDisabled]⟩
  · rw [if_neg (by omega)]
  · rw [if_pos hgt]
    exact ⟨rfl, rfl, rfl⟩

/-- C3 witness: a 5-character text times out into the `timeout` state. -/
theorem c3_timeout_thresholds_witness :
    photoStep { text := str "short", stage := PhotoStage.writing, evalCount := 0 }
        PhotoEvent.timerFires
      = { ({ text := str "short", stage := PhotoStage.writing, evalCount := 0 } : PhotoState) with
          stage := PhotoStage.timeout } :=
  (c3_timeout_thresholds
      { text := str "short", stage := PhotoStage.writing, evalCount := 0 } rfl).1 (by decide)

theorem mkToken_tokenOk (w : Str) (r : ℚ) : TokenOk (mkToken w r) := by
  unfold mkToken TokenOk
  set b := isWordTok w && decide (3 < w.length) && decide (mkRat 3 5 < r) with hb
  by_cases hbt : b = true
  · rw [if_pos hbt]
    have hlen : 3 < w.length := by
      have := hbt
      rw [hb] at this
      simp only [Bool.and_eq_true, decide_eq_true_eq] at this
      exact this.1.2
    refine ⟨rfl, fun _ => ⟨?_, ?_, ?_⟩⟩
    · show w.take (max 1 (w.length / 2)) ≠ []
      intro hnil
      have hlen2 := congrArg List.length hnil
      rw [List.length_take] at hlen2
      simp only [List.length_nil] at hlen2
      omega
    · show (w.take (max 1 (w.length / 2))).length < w.length
      rw [List.length_take]
      omega
    · exact ⟨w.drop (max 1 (w.length / 2)), List.take_append_drop _ w⟩
  · rw [if_neg hbt]
    exact ⟨rfl, fun hfalse => absurd hfalse (by simp)⟩

theorem mkTokens_tokenOk (wrs : List (Str × ℚ)) : ∀ t ∈ mkTokens wrs, TokenOk t := by
  intro t ht
  unfold mkTokens at ht
  rcases List.mem_map.mp ht with ⟨p, _, hp⟩
  exact hp ▸ mkToken_tokenOk p.1 p.2

theorem handleInput_pres (P : Token → Prop)
    (hP : ∀ (t : Token) (v : Str), P t → P { t with userAnswer := v }) :
    ∀ (ts : List Token) (i : Nat) (v : Str),
      (∀ t ∈ ts, P t) → ∀ t ∈ handleInput ts i v, P t := by
  intro ts
  induction ts with
  | nil => intro i v _ t ht; simp [handleInput] at ht
  | cons t0 ts ih =>
    intro i v hall t ht
    cases i with
    | zero =>
      rcases (List.mem_cons).mp ht with h | h
      · exact h ▸ hP t0 v (hall t0 (List.mem_cons_self t0 ts))
      · exact hall t (List.mem_cons_of_mem t0 h)
    | succ n =>
      rcases (List.mem_cons).mp ht with h | h
      · exact h ▸ hall t0 (List.mem_cons_self t0 ts)
      · exact ih n v (fun u hu => hall u (List.mem_cons_of_mem t0 hu)) t h

theorem applyEdits_pres (P : Token → Prop)
    (hP : ∀ (t : Token) (v : Str), P t → P { t with userAnswer := v }) :
    ∀ (edits : List (Nat × Str)) (ts : List Token),
      (∀ t ∈ ts, P t) → ∀ t ∈ applyEdits ts edits, P t := by
  intro edits
  induction edits with
  | nil => intro ts hall; exact hall
  | cons e edits ih =>
    intro ts hall
    exact ih (handleInput ts e.1 e.2) (handleInput_pres P hP ts e.1 e.2 hall)

theorem tokenOk_update (t : Token) (v : Str) (h : TokenOk t) :
    TokenOk { t with userAnswer := v } := h

/-- C6.  Tokens of a Paragraph Completion session (however the user edits
the blanks) are ungraded with, when blanked, a strict non-empty visible
prefix of the full word; after `checkAnswers`, non-blank tokens are still
ungraded and a blank token is graded correct exactly by the case-insensitive
comparison of `prefix ++ userAnswer` with `fullWord`, and by nothing else. -/
theorem c6_token_invariant (wrs : List (Str × ℚ)) (edits : List (Nat × Str)) :
    (∀ t ∈ applyEdits (mkTokens wrs) edits,
        t.isCorrect = none
        ∧ (t.isBlank = true →
            t.visiblePrefix ≠ [] ∧ t.visiblePrefix.length < t.fullWord.length
            ∧ t.visiblePrefix <+: t.fullWord))
    ∧ ∀ t ∈ checkAnswers (applyEdits (mkTokens wrs) edits),
        (t.isBlank = false → t.isCorrect = none)
        ∧ (t.isBlank = true →
            t.isCorrect = some (jsLower (t.visiblePrefix ++ t.userAnswer) == jsLower t.fullWord)) := by
  have hall : ∀ t ∈ applyEdits (mkTokens wrs) edits, TokenOk t :=
    applyEdits_pres TokenOk tokenOk_update edits (mkTokens wrs) (mkTokens_tokenOk wrs)
  refine ⟨fun t ht => hall t ht, fun t ht => ?_⟩
  unfold checkAnswers at ht
  rcases List.mem_map.mp ht with ⟨t0, ht0, heq⟩
  have h0 := hall t0 ht0
  by_cases hb : t0.isBlank = true
  · rw [if_pos hb] at heq
    subst heq
    refine ⟨fun hfalse => ?_, fun _ => rfl⟩
    exact absurd (show t0.isBlank = false from hfalse) (by simp [hb])
  · rw [if_neg hb] at heq
    subst heq
    exact ⟨fun _ => h0.1, fun htrue => absurd htrue hb⟩

/-- C6 witness: the blanked eligible word "hello" (draw 0.9) with the edited
answer "LLO" is graded by exactly the case-insensitive comparison. -/
theorem c6_token_invariant_witness :
    (Token.mk (str "hello") (str "he") true (str "LLO") (some true)).isCorrect
      = some (jsLower ((str "he") ++ (str "LLO")) == jsLower (str "hello")) :=
  ((c6_token_invariant [(str "hello", mkRat 9 10)] [(0, str "LLO")]).2
      (Token.mk (str "hello") (str "he") true (str "LLO") (some true)) (by decide)).2 (by decide)

theorem rwStep_over (s : RWState) (e : RWEvent) (h : s.gameOver = true) : rwStep s e = s := by
  simp [rwStep, h]

theorem rwRun_over (es : List RWEvent) :
    ∀ s : RWState, s.gameOver = true → rwRun s es = s := by
  induction es with
  | nil => intro s _; rfl
  | cons e es ih =>
    intro s h
    show rwRun (rwStep s e) es = s
    rw [rwStep_over s e h]
    exact ih s h

theorem rwRun_append (s : RWState) (es more : List RWEvent) :
    rwRun s (es ++ more) = rwRun (rwRun s es) more := by
  simp [rwRun, List.foldl_append]

theorem rwStep_notOver (mix : List RWItem) (i sc : Nat) (rs : List RWResult) (e : RWEvent)
    (hi : i < mix.length) :
    rwStep { words := mix, currentIndex := i, score := sc, gameOver := false, userResults := rs } e
      = if i < mix.length - 1 then
          { words := mix
            currentIndex := i + 1
            score := if (resOf mix[i] e).correct then sc + 1 else sc
            gameOver := false
            userResults := rs ++ [resOf mix[i] e] }
        else
          { words := mix
            currentIndex := i
            score := if (resOf mix[i] e).correct then sc + 1 else sc
            gameOver := true
            userResults := rs ++ [resOf mix[i] e] } := by
  have hgetD : mix.getD i defaultItem = mix[i] := List.getD_eq_getElem mix defaultItem hi
  cases e with
  | choice b => simp only [rwStep, handleNext, resOf, hgetD, Bool.false_eq_true, if_false]
  | timeout => simp only [rwStep, handleNext, resOf, hgetD, Bool.false_eq_true, if_false]

theorem zip_get?_eq {α β : Type} :
    ∀ (l1 : List α) (l2 : List β) (i : Nat) (a : α) (b : β),
      l1.get? i = some a → l2.get? i = some b → (l1.zip l2).get? i = some (a, b) := by
  intro l1
  induction l1 with
  | nil => intro l2 i a b h1 _; simp at h1
  | cons x xs ih =>
    intro l2 i a b h1 h2
    cases l2 with
    | nil => simp at h2
    | cons y ys =>
      cases i with
      | zero =>
        simp only [List.get?] at h1 h2
        injection h1 with h1
        injection h2 with h2
        simp [List.zip_cons_cons, List.get?, h1, h2]
      | succ n =>
        simp only [List.get?] at h1 h2
        simp only [List.zip_cons_cons, List.get?]
        exact ih ys n a b h1 h2

theorem rwRun_closed (es : List RWEvent) :
    ∀ (mix : List RWItem) (i sc : Nat) (rs : List RWResult), i + es.length ≤ mix.length →
      rwRun { words := mix, currentIndex := i, score := sc, gameOver := false,
              userResults := rs } es
        = { words := mix
            currentIndex := if es = [] then i else min (i + es.length) (mix.length - 1)
            score :=
              sc + (((mix.drop i).zip es).map fun p => resOf p.1 p.2).countP fun r => r.correct
            gameOver := decide (es ≠ [] ∧ i + es.length = mix.length)
            userResults := rs ++ ((mix.drop i).zip es).map fun p => resOf p.1 p.2 } := by
  induction es with
  | nil =>
    intro mix i sc rs hle
    show ({ words := mix, currentIndex := i, score := sc, gameOver := false,
            userResults := rs } : RWState) = _
    simp
  | cons e es ih =>
    intro mix i sc rs hle
    rw [List.length_cons] at hle
    have hi : i < mix.length := by omega
    have hdrop : mix.drop i = mix[i] :: mix.drop (i + 1) := List.drop_eq_getElem_cons hi
    show rwRun (rwStep { words := mix, currentIndex := i, score := sc, gameOver := false,
                         userResults := rs } e) es = _
    rw [rwStep_notOver mix i sc rs e hi]
    by_cases hlt : i < mix.length - 1
    · rw [if_pos hlt]
      rw [ih mix (i + 1) (if (resOf mix[i] e).correct then sc + 1 else sc)
          (rs ++ [resOf mix[i] e]) (by omega)]
      rw [hdrop, List.zip_cons_cons, List.map_cons, List.countP_cons]
      simp only [RWState.mk.injEq]
      refine ⟨trivial, ?_, ?_, ?_, ?_⟩
      · rcases es with _ | ⟨e2, es2⟩ <;> simp <;> omega
      · split_ifs <;> omega
      · simp only [decide_eq_decide]
        rcases es with _ | ⟨e2, es2⟩ <;> simp <;> omega
      · simp
    · rw [if_neg hlt]
      have hes : es = [] := by
        have h0 : es.length = 0 := by omega
        exact List.length_eq_zero.mp h0
      subst hes
      rw [rwRun_over [] _ rfl]
      rw [hdrop, List.zip_cons_cons, List.zip_nil_right, List.map_cons, List.map_nil,
        List.countP_cons, List.countP_nil]
      simp only [RWState.mk.injEq]
      have hieq : i + 1 = mix.length := by omega
      refine ⟨trivial, ?_, ?_, ?_, trivial⟩
      · simp
        omega
      · split_ifs <;> omega
      · have h1 : i + [e].length = mix.length := by
          simp
          omega
        simp [h1]
        omega

/-- C1.  Provided the real-word and fake-word vocabulary lists have at least
10 entries, a Real-Word session runs over 20 items (10 real, 10 fake, in any
shuffle); after 20 events (judgments or per-item timeouts) the session is
over with exactly one recorded result per item, the score equals the number
of recorded results whose judgment matched the item's real/fake flag, a
timed-out item is recorded with `correct = false` (never as a "real"
judgment), and no further event changes the state. -/
theorem c1_realword_session
    (realsPerm : List WordDef) (fakesPerm : List Str) (mix : List RWItem) (es : List RWEvent)
    (hr : 10 ≤ realsPerm.length) (hf : 10 ≤ fakesPerm.length)
    (hmix : mix.Perm
      (((realsPerm.take 10).map fun w => ({ text := w.word, isReal := true } : RWItem))
        ++ ((fakesPerm.take 10).map fun w => ({ text := w, isReal := false } : RWItem))))
    (hes : es.length = 20) :
    mix.length = 20
    ∧ mix.countP (fun it => it.isReal) = 10
    ∧ mix.countP (fun it => !it.isReal) = 10
    ∧ (rwRun (rwInit mix) es).gameOver = true
    ∧ (rwRun (rwInit mix) es).userResults = ((mix.zip es).map fun p => resOf p.1 p.2)
    ∧ (rwRun (rwInit mix) es).userResults.length = 20
    ∧ (rwRun (rwInit mix) es).score
        = ((rwRun (rwInit mix) es).userResults.filter fun r => r.correct).length
    ∧ (∀ i, es.get? i = some RWEvent.timeout →
        ∃ r, (rwRun (rwInit mix) es).userResults.get? i = some r ∧ r.correct = false)
    ∧ ∀ more, rwRun (rwInit mix) (es ++ more) = rwRun (rwInit mix) es := by
  have hA : ((realsPerm.take 10).map
      fun w => ({ text := w.word, isReal := true } : RWItem)).length = 10 := by
    simp [List.length_take]
    omega
  have hB : ((fakesPerm.take 10).map
      fun w => ({ text := w, isReal := false } : RWItem)).length = 10 := by
    simp [List.length_take]
    omega
  have hlen : mix.length = 20 := by rw [hmix.length_eq, List.length_append, hA, hB]
  have hcR : mix.countP (fun it => it.isReal) = 10 := by
    rw [hmix.countP_eq, List.countP_append, List.countP_map, List.countP_map]
    simp [Function.comp_def, List.length_take]
    omega
  have hcF : mix.countP (fun it => !it.isReal) = 10 := by
    rw [hmix.countP_eq, List.countP_append, List.countP_map, List.countP_map]
    simp [Function.comp_def, List.length_take]
    omega
  have hne : es ≠ [] := by
    intro h
    rw [h] at hes
    simp at hes
  have hclosed := rwRun_closed es mix 0 0 [] (by omega)
  have hinit : rwRun (rwInit mix) es
      = { words := mix
          currentIndex := if es = [] then 0 else min (0 + es.length) (mix.length - 1)
          score :=
            0 + (((mix.drop 0).zip es).map fun p => resOf p.1 p.2).countP fun r => r.correct
          gameOver := decide (es ≠ [] ∧ 0 + es.length = mix.length)
          userResults := [] ++ ((mix.drop 0).zip es).map fun p => resOf p.1 p.2 } := hclosed
  have hgo : (rwRun (rwInit mix) es).gameOver = true := by
    rw [hinit]
    simp [hne, hes, hlen]
  have hres : (rwRun (rwInit mix) es).userResults
      = ((mix.zip es).map fun p => resOf p.1 p.2) := by
    rw [hinit]
    simp [List.drop_zero]
  refine ⟨hlen, hcR, hcF, hgo, hres, ?_, ?_, ?_, ?_⟩
  · rw [hres]
    simp [List.length_zip, hlen, hes]
  · rw [hinit]
    simp [List.drop_zero, List.countP_eq_length_filter]
  · intro i hti
    have hi20 : i < es.length := by
      rcases List.get?_eq_some.mp hti with ⟨h, _⟩
      exact h
    have hmixi : mix.get? i = some mix[i] := List.get?_eq_get (by omega)
    have hz := zip_get?_eq mix es i mix[i] RWEvent.timeout hmixi hti
    refine ⟨resOf mix[i] RWEvent.timeout, ?_, rfl⟩
    rw [hres, List.get?_map, hz]
    rfl
  · intro more
    rw [rwRun_append]
    exact rwRun_over more _ hgo

/-- C1 witness: a concrete unshuffled 10+10 mix with 20 timeout events ends
the session. -/
theorem c1_realword_session_witness :
    (rwRun
        (rwInit
          ((((List.replicate 10
                ({ word := str "cat", type := str "noun", level := str "B2" } : WordDef)).take
                10).map fun w => ({ text := w.word, isReal := true } : RWItem))
            ++ (((List.replicate 10 (str "blik")).take 10).map
                fun w => ({ text := w, isReal := false } : RWItem))))
        (List.replicate 20 RWEvent.timeout)).gameOver = true :=
  (c1_realword_session
      (List.replicate 10 ({ word := str "cat", type := str "noun", level := str "B2" } : WordDef))
      (List.replicate 10 (str "blik")) _ _
      (by decide) (by decide) (List.Perm.refl _) (by decide)).2.2.2.1

end DET
